import Mathlib

/-!
Verification of the Azure AD employee/department synchronisation addon.

The development shallowly embeds the two model files of the addon:
`hr_employee.py` (the `_create_azure_email` address allocator and the
`_add_to_dept_dl` membership linker) and `hr_department.py` (the
`action_sync_dl_from_azure` group-sync action).  Strings are lists of
characters, the remote directory is an oracle supplied by an environment
record, and every function additionally returns the trace of HTTP requests
it issues, so that claims about call counts, call order, timeouts and
record mutation can be stated and settled.
-/

/-- Strings are modelled as lists of characters. -/
abbrev Str := List Char

namespace AzureSync

/-- Python `str.lower`, character by character (basic-latin letters, exactly
the range `Char.toLower` handles). -/
def lowerStr (s : Str) : Str := s.map Char.toLower

/-- Python `str.strip`: drop leading and trailing whitespace. -/
def stripStr (s : Str) : Str :=
  ((s.dropWhile Char.isWhitespace).reverse.dropWhile Char.isWhitespace).reverse

/-- Accumulator pass behind `splitWs`: the accumulator holds the current
word reversed, and finished words are emitted in order. -/
def splitWsAux : Str → Str → List Str
  | [], acc => if acc = [] then [] else [acc.reverse]
  | c :: cs, acc =>
    if c.isWhitespace then
      if acc = [] then splitWsAux cs [] else acc.reverse :: splitWsAux cs []
    else splitWsAux cs (c :: acc)

/-- Python `str.split()` with no separator: split on whitespace runs and
drop empty pieces. -/
def splitWs (s : Str) : List Str := splitWsAux s []

/-- The name-to-base derivation of `_create_azure_email` STEP 2
(`hr_employee.py` lines 50-53): `parts = self.name.strip().lower().split()`,
`first = parts[0]`, `last = parts[-1] if len(parts) > 1 else first`,
`base = f"{first}.{last}"`.  `none` models the `IndexError` raised on a
name with no parts (caught by the surrounding handler). -/
def deriveBase (name : Str) : Option Str :=
  match splitWs (lowerStr (stripStr name)) with
  | [] => none
  | p0 :: rest => some (p0 ++ '.' :: rest.getLastD p0)

/-- The derivation exactly as the spec words it (§4.2, §8): split the
display name on whitespace, then lowercase the first part and the last part
(the single part doubled for one-part names). -/
def specBase (name : Str) : Option Str :=
  match splitWs name with
  | [] => none
  | p0 :: rest => some (lowerStr p0 ++ '.' :: lowerStr (rest.getLastD p0))

/-- `Char.ofNat` at a valid codepoint keeps the numeric value. -/
theorem toNat_ofNat_of_valid {n : Nat} (h : n.isValidChar) : (Char.ofNat n).toNat = n := by
  rw [Char.ofNat, dif_pos h]
  rfl

/-- Whitespace characters have one of four code points. -/
theorem ws_toNat {c : Char} (h : c.isWhitespace = true) :
    c.toNat = 32 ∨ c.toNat = 9 ∨ c.toNat = 13 ∨ c.toNat = 10 := by
  simp only [Char.isWhitespace, Bool.or_eq_true, decide_eq_true_eq] at h
  rcases h with ((h | h) | h) | h <;> subst h <;> decide

/-- Lowercasing a character does not change whether it is whitespace. -/
theorem isWhitespace_toLower (c : Char) :
    (Char.toLower c).isWhitespace = c.isWhitespace := by
  unfold Char.toLower
  by_cases h : c.toNat ≥ 65 ∧ c.toNat ≤ 90
  · rw [if_pos h]
    have hvalid : (c.toNat + 32).isValidChar := Or.inl (by omega)
    have h1 : (Char.ofNat (c.toNat + 32)).isWhitespace = false := by
      cases hw : (Char.ofNat (c.toNat + 32)).isWhitespace
      · rfl
      · rcases ws_toNat hw with h' | h' | h' | h' <;>
          rw [toNat_ofNat_of_valid hvalid] at h' <;> omega
    have h2 : c.isWhitespace = false := by
      cases hw : c.isWhitespace
      · rfl
      · rcases ws_toNat hw with h' | h' | h' | h' <;> omega
    rw [h1, h2]
  · rw [if_neg h]

/-- `lowerStr` of the empty string. -/
theorem lowerStr_nil : lowerStr [] = [] := rfl

/-- `lowerStr` distributes over cons. -/
theorem lowerStr_cons (c : Char) (s : Str) :
    lowerStr (c :: s) = Char.toLower c :: lowerStr s := rfl

/-- `lowerStr` is empty exactly on the empty string. -/
theorem lowerStr_eq_nil {s : Str} : lowerStr s = [] ↔ s = [] := by
  simp [lowerStr]

/-- Splitting commutes with lowercasing, accumulator form. -/
theorem splitWsAux_lowerStr (s : Str) :
    ∀ acc : Str, splitWsAux (lowerStr s) (lowerStr acc)
      = (splitWsAux s acc).map lowerStr := by
  induction s with
  | nil =>
    intro acc
    by_cases h : acc = []
    · subst h
      rfl
    · rw [lowerStr_nil]
      show splitWsAux [] (lowerStr acc) = _
      rw [splitWsAux, splitWsAux, if_neg h, if_neg (by simpa [lowerStr_eq_nil] using h)]
      simp [lowerStr, List.map_reverse]
  | cons c cs ih =>
    intro acc
    rw [lowerStr_cons, splitWsAux, splitWsAux, isWhitespace_toLower]
    by_cases hws : c.isWhitespace = true
    · rw [if_pos hws, if_pos hws]
      by_cases h : acc = []
      · subst h
        rw [lowerStr_nil, if_pos rfl, if_pos rfl]
        have := ih []
        rwa [lowerStr_nil] at this
      · rw [if_neg h, if_neg (by simpa [lowerStr_eq_nil] using h), List.map_cons]
        have := ih []
        rw [lowerStr_nil] at this
        rw [this]
        simp [lowerStr, List.map_reverse]
    · rw [if_neg hws, if_neg hws]
      have := ih (c :: acc)
      rwa [lowerStr_cons] at this

/-- Splitting commutes with lowercasing. -/
theorem splitWs_lowerStr (s : Str) :
    splitWs (lowerStr s) = (splitWs s).map lowerStr := by
  have := splitWsAux_lowerStr s []
  rwa [lowerStr_nil] at this

/-- A string of whitespace only contributes nothing beyond the pending
accumulator. -/
theorem splitWsAux_ws_only (t : Str) (hws : ∀ c ∈ t, c.isWhitespace = true) :
    ∀ acc : Str, splitWsAux t acc = if acc = [] then [] else [acc.reverse] := by
  induction t with
  | nil => intro acc; rfl
  | cons c cs ih =>
    intro acc
    have hc := hws c (by simp)
    rw [splitWsAux, if_pos hc]
    have ihcs := ih (fun x hx => hws x (by simp [hx]))
    by_cases h : acc = []
    · subst h
      rw [if_pos rfl, if_pos rfl, ihcs, if_pos rfl]
    · rw [if_neg h, if_neg h, ihcs, if_pos rfl]

/-- Appending trailing whitespace does not change the split. -/
theorem splitWsAux_append_ws (t : Str) (hws : ∀ c ∈ t, c.isWhitespace = true) (s : Str) :
    ∀ acc : Str, splitWsAux (s ++ t) acc = splitWsAux s acc := by
  induction s with
  | nil =>
    intro acc
    rw [List.nil_append, splitWsAux_ws_only t hws acc]
    rfl
  | cons c cs ih =>
    intro acc
    rw [List.cons_append, splitWsAux, splitWsAux]
    by_cases hc : c.isWhitespace = true
    · rw [if_pos hc, if_pos hc]
      by_cases h : acc = []
      · rw [if_pos h, if_pos h, ih]
      · rw [if_neg h, if_neg h, ih]
    · rw [if_neg hc, if_neg hc, ih]

/-- Dropping leading whitespace does not change the split. -/
theorem splitWsAux_dropWhile_ws (s : Str) :
    splitWsAux (s.dropWhile Char.isWhitespace) [] = splitWsAux s [] := by
  induction s with
  | nil => rfl
  | cons c cs ih =>
    by_cases hc : c.isWhitespace = true
    · rw [List.dropWhile_cons_of_pos hc, ih, splitWsAux, if_pos hc, if_pos rfl]
    · rw [List.dropWhile_cons_of_neg (by simp [hc])]

/-- Python's `strip` is invisible to `split()`. -/
theorem splitWs_stripStr (s : Str) : splitWs (stripStr s) = splitWs s := by
  unfold splitWs stripStr
  set u := s.dropWhile Char.isWhitespace with hu
  have hdecomp : u = (u.reverse.dropWhile Char.isWhitespace).reverse
      ++ (u.reverse.takeWhile Char.isWhitespace).reverse := by
    have := List.takeWhile_append_dropWhile (p := Char.isWhitespace) (l := u.reverse)
    calc u = u.reverse.reverse := by rw [List.reverse_reverse]
    _ = (u.reverse.takeWhile Char.isWhitespace ++ u.reverse.dropWhile Char.isWhitespace).reverse := by
        rw [this]
    _ = _ := by rw [List.reverse_append]
  have hws : ∀ c ∈ (u.reverse.takeWhile Char.isWhitespace).reverse, c.isWhitespace = true := by
    intro c hc
    rw [List.mem_reverse] at hc
    exact List.mem_takeWhile_imp hc
  calc splitWsAux ((u.reverse.dropWhile Char.isWhitespace).reverse) []
      = splitWsAux ((u.reverse.dropWhile Char.isWhitespace).reverse
          ++ (u.reverse.takeWhile Char.isWhitespace).reverse) [] := by
        rw [splitWsAux_append_ws _ hws]
  _ = splitWsAux u [] := by rw [← hdecomp]
  _ = splitWsAux s [] := splitWsAux_dropWhile_ws s

/-- `getLastD` commutes with `map`. -/
theorem getLastD_map {α β : Type} (f : α → β) (l : List α) (a : α) :
    (l.map f).getLastD (f a) = f (l.getLastD a) := by
  induction l generalizing a with
  | nil => rfl
  | cons x xs ih => rw [List.map_cons, List.getLastD_cons, List.getLastD_cons, ih x]

/-- The code's derivation agrees with the spec's wording on every name. -/
theorem deriveBase_eq_specBase (name : Str) : deriveBase name = specBase name := by
  unfold deriveBase specBase
  rw [splitWs_lowerStr, splitWs_stripStr]
  cases h : splitWs name with
  | nil => rfl
  | cons p0 rest =>
    show some (lowerStr p0 ++ '.' :: (rest.map lowerStr).getLastD (lowerStr p0))
      = some (lowerStr p0 ++ '.' :: lowerStr (rest.getLastD p0))
    rw [getLastD_map lowerStr rest p0]

/-- Decimal rendering of the loop counter, as Python string interpolation
produces it. -/
def natToStr (n : Nat) : Str := (Nat.repr n).data

/-- The candidate principal name probed at loop counter `k`: `base@domain`
for the initial counter value 1 (`hr_employee.py` line 54), and
`base{k}@domain` once the counter has been incremented (line 99). -/
def candEmail (base domain : Str) (k : Nat) : Str :=
  if k = 1 then base ++ '@' :: domain else base ++ natToStr k ++ '@' :: domain

/-- The candidate emails at counters `start, start + 1, …` (`len` of them). -/
def candSeq (base domain : Str) : Nat → Nat → List Str
  | _, 0 => []
  | start, len + 1 => candEmail base domain start :: candSeq base domain (start + 1) len

/-- The kind of an HTTP request issued by the addon. -/
inductive CallKind where
  | tokenReq
  | userLookup
  | userCreate
  | groupSearch
  | memberAdd
  deriving DecidableEq

/-- One HTTP request: its kind, its distinguishing argument (principal name
looked up or created, group-mail filter, or group id), and the `timeout=`
argument it was issued with (`none` when the source passes none). -/
structure NetCall where
  kind : CallKind
  target : Str
  timeout : Option Nat
  deriving DecidableEq

/-- The four `ir.config_parameter` values; `none` models an absent value. -/
structure Config where
  tenant_id : Option Str
  client_id : Option Str
  client_secret : Option Str
  domain : Option Str
  deriving DecidableEq

/-- Python `not all([tenant_id, client_id, client_secret, domain])`. -/
def Config.missing (cfg : Config) : Prop :=
  cfg.tenant_id = none ∨ cfg.client_id = none ∨ cfg.client_secret = none ∨ cfg.domain = none

instance (cfg : Config) : Decidable cfg.missing := by
  unfold Config.missing
  infer_instance

/-- The `hr.employee` fields the addon reads or writes. -/
structure Employee where
  name : Str
  azure_email : Option Str
  work_email : Option Str
  azure_user_id : Option Str
  department_id : Option Nat
  deriving DecidableEq

/-- The `hr.department` fields the addon reads or writes. -/
structure Department where
  name : Str
  azure_dl_email : Option Str
  azure_dl_id : Option Str
  deriving DecidableEq

/-- How the STEP 4 while-loop of `_create_azure_email` ends: `ok` when
control falls to STEP 5 with a candidate left in `unique_email`, `err` when
an unexpected lookup status makes the whole method return. -/
inductive ProbeOut where
  | ok (email : Str)
  | err (status : Nat)
  deriving DecidableEq

/-- The STEP 4 while-loop of `_create_azure_email` (`hr_employee.py` lines
85-103).  `check` gives the status of the lookup-by-principal-name request;
`fuel` is the number of iterations the guard `count < 100` still allows
(`fuel = 100 - count`); the returned list records the candidates looked up,
in order.  A 404 breaks with the current candidate, a 200 increments the
counter and retries with the suffixed candidate, anything else aborts.
When fuel runs out the loop exits with the current (never looked up)
candidate still selected. -/
def probeGo (check : Str → Nat) (base domain : Str) :
    Nat → Nat → Str → List Str × ProbeOut
  | 0, _, email => ([], .ok email)
  | fuel + 1, count, email =>
    let s := check email
    if s = 404 then ([email], .ok email)
    else if s = 200 then
      let r := probeGo check base domain fuel (count + 1) (candEmail base domain (count + 1))
      (email :: r.1, r.2)
    else ([email], .err s)

/-- Remote behaviour visible to `_create_azure_email`: whether the token
POST passes `raise_for_status`, the optional `access_token` field of its
body, the status each lookup returns, and the status of the user-creation
POST. -/
structure CreateEnv where
  tokenHttpOk : Bool
  token : Option Str
  check : Str → Nat
  createStatus : Nat

/-- Result of `_create_azure_email`: the employee record afterwards and the
HTTP requests issued, in order. -/
structure CreateOut where
  emp : Employee
  calls : List NetCall
  deriving DecidableEq

/-- `_create_azure_email` (`hr_employee.py` lines 28-141): credentials
check, STEP 2 derivation, token acquisition (timeout 30), the STEP 4 probe
loop (timeout 30 per lookup), the STEP 5 creation POST (timeout 30), and
the STEP 6 writes.  On a 201 the response body is parsed into `user_data`
and discarded; only `azure_email` and `work_email` are written.  Every
failure path returns with the record unmodified. -/
def create_azure_email (cfg : Config) (env : CreateEnv) (emp : Employee) : CreateOut :=
  if cfg.missing then ⟨emp, []⟩
  else
    let domain := cfg.domain.getD []
    match deriveBase emp.name with
    | none => ⟨emp, []⟩
    | some base =>
      let tokenCall : NetCall := ⟨.tokenReq, [], some 30⟩
      if env.tokenHttpOk = false then ⟨emp, [tokenCall]⟩
      else
        match env.token with
        | none => ⟨emp, [tokenCall]⟩
        | some _ =>
          let r := probeGo env.check base domain 99 1 (candEmail base domain 1)
          let lookCalls := r.1.map fun e => (⟨.userLookup, e, some 30⟩ : NetCall)
          match r.2 with
          | .err _ => ⟨emp, tokenCall :: lookCalls⟩
          | .ok e =>
            let createCall : NetCall := ⟨.userCreate, e, some 30⟩
            if env.createStatus = 201 then
              ⟨{ emp with azure_email := some e, work_email := some e },
                tokenCall :: lookCalls ++ [createCall]⟩
            else ⟨emp, tokenCall :: lookCalls ++ [createCall]⟩

/-- Unfolding equation for one probe-loop iteration with fuel left. -/
theorem probeGo_succ (check : Str → Nat) (base domain : Str) (fuel count : Nat) (email : Str) :
    probeGo check base domain (fuel + 1) count email
      = if check email = 404 then ([email], .ok email)
        else if check email = 200 then
          (email ::
            (probeGo check base domain fuel (count + 1) (candEmail base domain (count + 1))).1,
            (probeGo check base domain fuel (count + 1) (candEmail base domain (count + 1))).2)
        else ([email], .err (check email)) := rfl

/-- When every lookup reports the candidate present, the loop burns all its
fuel, looking up the candidates at counters `count, …, count + fuel - 1`,
and exits with the candidate at counter `count + fuel` selected but never
looked up. -/
theorem probeGo_all_found (check : Str → Nat) (base domain : Str)
    (hall : ∀ e, check e = 200) :
    ∀ fuel count, probeGo check base domain fuel count (candEmail base domain count)
      = (candSeq base domain count fuel, .ok (candEmail base domain (count + fuel))) := by
  intro fuel
  induction fuel with
  | zero => intro count; rfl
  | succ f ih =>
    intro count
    have hc := hall (candEmail base domain count)
    rw [probeGo_succ, if_neg (by simp [hc]), if_pos hc, ih (count + 1)]
    have harg : count + 1 + f = count + (f + 1) := by omega
    rw [harg]
    rfl

/-- Whatever candidate the loop leaves selected was either looked up and
reported absent, or is the candidate at counter `count + fuel`, reached by
exhausting the fuel. -/
theorem probeGo_ok_sound (check : Str → Nat) (base domain : Str) :
    ∀ fuel count tr e,
      probeGo check base domain fuel count (candEmail base domain count) = (tr, .ok e) →
      check e = 404 ∨ e = candEmail base domain (count + fuel) := by
  intro fuel
  induction fuel with
  | zero =>
    intro count tr e h
    have h0 : probeGo check base domain 0 count (candEmail base domain count)
        = ([], ProbeOut.ok (candEmail base domain count)) := rfl
    rw [h0, Prod.mk.injEq] at h
    right
    rw [Nat.add_zero]
    exact ((ProbeOut.ok.injEq _ _).mp h.2).symm
  | succ f ih =>
    intro count tr e h
    rw [probeGo_succ] at h
    by_cases h404 : check (candEmail base domain count) = 404
    · rw [if_pos h404, Prod.mk.injEq] at h
      left
      rw [← (ProbeOut.ok.injEq _ _).mp h.2]
      exact h404
    · rw [if_neg h404] at h
      by_cases h200 : check (candEmail base domain count) = 200
      · rw [if_pos h200, Prod.mk.injEq] at h
        have hrec : probeGo check base domain f (count + 1) (candEmail base domain (count + 1))
            = ((probeGo check base domain f (count + 1) (candEmail base domain (count + 1))).1,
               ProbeOut.ok e) := by
          rw [← h.2]
        have := ih (count + 1) _ e hrec
        have harg : count + 1 + f = count + (f + 1) := by omega
        rwa [harg] at this
      · rw [if_neg h200, Prod.mk.injEq] at h
        exact absurd h.2 (by simp)

/-- The deterministic run of the loop: `m` conflicting candidates followed
by a free one, all within the fuel budget, give `m + 1` lookups in counter
order and select the free candidate. -/
theorem probeGo_run (check : Str → Nat) (base domain : Str) :
    ∀ m fuel count, m < fuel →
      (∀ k, count ≤ k → k < count + m → check (candEmail base domain k) = 200) →
      check (candEmail base domain (count + m)) = 404 →
      probeGo check base domain fuel count (candEmail base domain count)
        = (candSeq base domain count (m + 1), .ok (candEmail base domain (count + m))) := by
  intro m
  induction m with
  | zero =>
    intro fuel count hf _ h404
    rw [Nat.add_zero] at h404
    match fuel, hf with
    | f + 1, _ =>
      rw [probeGo_succ, if_pos h404]
      rw [Nat.add_zero]
      rfl
  | succ m ih =>
    intro fuel count hf h200 h404
    match fuel, hf with
    | f + 1, hf =>
      have hc : check (candEmail base domain count) = 200 := h200 count le_rfl (by omega)
      have harg : count + 1 + m = count + (m + 1) := by omega
      rw [probeGo_succ, if_neg (by simp [hc]), if_pos hc,
        ih f (count + 1) (by omega)
          (fun k hk1 hk2 => h200 k (by omega) (by omega))
          (by rw [harg]; exact h404)]
      rw [harg]
      rfl

/-- Modelled from the spec: `hr.department.create_dl` is not among the two
source files; §4.3 treats creation of a new group as an external
collaborator invoked as a named operation on the unit, which on success
links the unit by setting the group-address/group-id pair.  The outcome
(the pair, or `none` on failure) is supplied by the environment. -/
def create_dl (res : Option (Str × Str)) (dept : Department) : Department :=
  match res with
  | none => dept
  | some (mail, gid) => { dept with azure_dl_email := some mail, azure_dl_id := some gid }

/-- How `_add_to_dept_dl` returns: the guard returns, the three dispatch
outcomes of the member-add status, and the catch-all handler that logs an
HTTP exception.  Every constructor is a normal return — nothing is raised
to the caller, and the employee record is never touched. -/
inductive AddOutcome where
  | skippedPre
  | noDl
  | added
  | alreadyMember
  | otherLogged (status : Nat)
  | exceptionLogged
  deriving DecidableEq

/-- Remote behaviour visible to `_add_to_dept_dl`: the `create_dl` outcome,
whether the token POST raises, the optional `access_token`, the member-add
status and whether the member-add POST raises. -/
structure AddEnv where
  createDl : Option (Str × Str)
  tokenRaises : Bool
  token : Option Str
  addStatus : Nat
  addRaises : Bool

/-- Result of `_add_to_dept_dl`: the department afterwards, the outcome,
the HTTP requests issued, and whether `create_dl` was invoked. -/
structure AddOut where
  dept : Department
  outcome : AddOutcome
  calls : List NetCall
  createDlInvoked : Bool
  deriving DecidableEq

/-- `_add_to_dept_dl` (`hr_employee.py` lines 143-191).  It reads three
configuration parameters but checks none of them, issues the token POST and
the member-add POST with no `timeout=` argument, does not check that a
token was obtained, maps 204 to a logged success and 400 to a logged
already-a-member no-op, only logs any other status, and catches every
exception.  `create_dl` is invoked only when the department has no linked
group yet. -/
def add_to_dept_dl (_cfg : Config) (env : AddEnv) (emp : Employee) (dept : Department) : AddOut :=
  if emp.department_id = none ∨ emp.azure_user_id = none then ⟨dept, .skippedPre, [], false⟩
  else
    let invoked := dept.azure_dl_id.isNone
    let dept1 := if dept.azure_dl_id = none then create_dl env.createDl dept else dept
    match dept1.azure_dl_id with
    | none => ⟨dept1, .noDl, [], invoked⟩
    | some gid =>
      let tokenCall : NetCall := ⟨.tokenReq, [], none⟩
      if env.tokenRaises then ⟨dept1, .exceptionLogged, [tokenCall], invoked⟩
      else
        let addCall : NetCall := ⟨.memberAdd, gid, none⟩
        if env.addRaises then ⟨dept1, .exceptionLogged, [tokenCall, addCall], invoked⟩
        else if env.addStatus = 204 then ⟨dept1, .added, [tokenCall, addCall], invoked⟩
        else if env.addStatus = 400 then ⟨dept1, .alreadyMember, [tokenCall, addCall], invoked⟩
        else ⟨dept1, .otherLogged env.addStatus, [tokenCall, addCall], invoked⟩

/-- Python `name.replace(' ', '_').replace('&', 'and')`
(`hr_department.py` lines 56-57). -/
def normName (s : Str) : Str :=
  (s.map fun c => if c = ' ' then '_' else c).flatMap fun c =>
    if c = '&' then ['a', 'n', 'd'] else [c]

/-- The expected distribution-list address `DL_{form}@{domain}`. -/
def dlAddr (form domain : Str) : Str :=
  'D' :: 'L' :: '_' :: (form ++ '@' :: domain)

/-- A group returned by the search-by-mail call. -/
structure Group where
  mail : Str
  id : Str
  deriving DecidableEq

/-- Remote behaviour visible to `action_sync_dl_from_azure`: whether the
token POST raises, the optional `access_token`, and for each searched mail
address the response status and `value` list. -/
structure SyncEnv where
  tokenRaises : Bool
  token : Option Str
  search : Str → Nat × List Group

/-- How `action_sync_dl_from_azure` returns: the credentials-missing danger
notification, the plain return on a missing token, the success notification
after linking a found group, the DL-not-found warning, and the catch-all
handler's danger notification. -/
inductive SyncResult where
  | credsMissing
  | tokenMissing
  | linked (g : Group)
  | notFound
  | errorCaught
  deriving DecidableEq

/-- Result of `action_sync_dl_from_azure`: the department afterwards, the
result, and the HTTP requests issued. -/
structure SyncOut where
  dept : Department
  result : SyncResult
  calls : List NetCall
  deriving DecidableEq

/-- `action_sync_dl_from_azure` (`hr_department.py` lines 14-119):
credentials check, token POST (timeout 30), search for the case-preserving
form `DL_{upper}@{domain}` (timeout 30), then — only when that search
produced no groups and the two forms differ — search for the lowercased
form (timeout 30); the first group found is written onto the department,
whether or not the department was already linked. -/
def action_sync_dl_from_azure (cfg : Config) (env : SyncEnv) (dept : Department) : SyncOut :=
  if cfg.missing then ⟨dept, .credsMissing, []⟩
  else
    let domain := cfg.domain.getD []
    let tokenCall : NetCall := ⟨.tokenReq, [], some 30⟩
    if env.tokenRaises then ⟨dept, .errorCaught, [tokenCall]⟩
    else
      match env.token with
      | none => ⟨dept, .tokenMissing, [tokenCall]⟩
      | some _ =>
        let upperN := normName dept.name
        let lowerN := normName (lowerStr dept.name)
        let upAddr := dlAddr upperN domain
        let upCall : NetCall := ⟨.groupSearch, upAddr, some 30⟩
        let upResp := env.search upAddr
        let upGroups := if upResp.1 = 200 then upResp.2 else []
        if upGroups = [] ∧ upperN ≠ lowerN then
          let loAddr := dlAddr lowerN domain
          let loCall : NetCall := ⟨.groupSearch, loAddr, some 30⟩
          let loResp := env.search loAddr
          let loGroups := if loResp.1 = 200 then loResp.2 else []
          match loGroups with
          | [] => ⟨dept, .notFound, [tokenCall, upCall, loCall]⟩
          | g :: _ =>
            ⟨{ dept with azure_dl_email := some g.mail, azure_dl_id := some g.id },
              .linked g, [tokenCall, upCall, loCall]⟩
        else
          match upGroups with
          | [] => ⟨dept, .notFound, [tokenCall, upCall]⟩
          | g :: _ =>
            ⟨{ dept with azure_dl_email := some g.mail, azure_dl_id := some g.id },
              .linked g, [tokenCall, upCall]⟩

/-- Case analysis on the requests `_create_azure_email` can issue: the
token request, the lookups of the probe loop, and a creation request whose
target the probe loop selected. -/
theorem create_calls_cases (cfg : Config) (env : CreateEnv) (emp : Employee)
    (P : NetCall → Prop)
    (htok : P ⟨.tokenReq, [], some 30⟩)
    (hlook : ∀ e, P ⟨.userLookup, e, some 30⟩)
    (hcreate : ∀ b e, ¬cfg.missing → deriveBase emp.name = some b →
      (probeGo env.check b (cfg.domain.getD []) 99 1
        (candEmail b (cfg.domain.getD []) 1)).2 = ProbeOut.ok e →
      P ⟨.userCreate, e, some 30⟩) :
    ∀ c ∈ (create_azure_email cfg env emp).calls, P c := by
  intro c hc
  unfold create_azure_email at hc
  by_cases hmiss : cfg.missing
  · rw [if_pos hmiss] at hc
    simp at hc
  · rw [if_neg hmiss] at hc
    cases hbase : deriveBase emp.name with
    | none =>
      rw [hbase] at hc
      simp at hc
    | some base =>
      rw [hbase] at hc
      dsimp only at hc
      by_cases hhttp : env.tokenHttpOk = false
      · rw [if_pos hhttp] at hc
        rcases List.mem_singleton.mp hc with rfl
        exact htok
      · rw [if_neg hhttp] at hc
        cases htokv : env.token with
        | none =>
          rw [htokv] at hc
          rcases List.mem_singleton.mp hc with rfl
          exact htok
        | some tok =>
          rw [htokv] at hc
          dsimp only at hc
          rcases hpr : probeGo env.check base (cfg.domain.getD []) 99 1
              (candEmail base (cfg.domain.getD []) 1) with ⟨tr, out⟩
          rw [hpr] at hc
          cases out with
          | err s =>
            dsimp only at hc
            rcases List.mem_cons.mp hc with rfl | hc
            · exact htok
            · rcases List.mem_map.mp hc with ⟨e, _, rfl⟩
              exact hlook e
          | ok e =>
            have hout : (probeGo env.check base (cfg.domain.getD []) 99 1
                (candEmail base (cfg.domain.getD []) 1)).2 = ProbeOut.ok e := by
              rw [hpr]
            have hP := hcreate base e hmiss hbase hout
            dsimp only at hc
            by_cases hcs : env.createStatus = 201
            · rw [if_pos hcs] at hc
              dsimp only at hc
              rcases List.mem_cons.mp hc with rfl | hc
              · exact htok
              · rcases List.mem_append.mp hc with hc | hc
                · rcases List.mem_map.mp hc with ⟨e', _, rfl⟩
                  exact hlook e'
                · rcases List.mem_singleton.mp hc with rfl
                  exact hP
            · rw [if_neg hcs] at hc
              dsimp only at hc
              rcases List.mem_cons.mp hc with rfl | hc
              · exact htok
              · rcases List.mem_append.mp hc with hc | hc
                · rcases List.mem_map.mp hc with ⟨e', _, rfl⟩
                  exact hlook e'
                · rcases List.mem_singleton.mp hc with rfl
                  exact hP

/-- Every request `_create_azure_email` issues carries `timeout=30`. -/
theorem create_calls_timeout (cfg : Config) (env : CreateEnv) (emp : Employee) :
    ∀ c ∈ (create_azure_email cfg env emp).calls, c.timeout = some 30 := by
  apply create_calls_cases
  · rfl
  · intro e
    rfl
  · intro b e _ _ _
    rfl

/-- Every account-creation request `_create_azure_email` issues targets a
candidate whose lookup returned 404, or the hundredth candidate, selected
unchecked when the loop fuel ran out. -/
theorem create_userCreate_sound (cfg : Config) (env : CreateEnv) (emp : Employee) :
    ∀ c ∈ (create_azure_email cfg env emp).calls, c.kind = .userCreate →
      env.check c.target = 404 ∨
        ∃ b d, cfg.domain = some d ∧ deriveBase emp.name = some b ∧
          c.target = candEmail b d 100 := by
  apply create_calls_cases
  · intro hk
    cases hk
  · intro e hk
    cases hk
  · intro b e hmiss hbase hout _
    have hsound := probeGo_ok_sound env.check b (cfg.domain.getD []) 99 1 _ e
      (by rw [← hout])
    rcases hsound with h | h
    · left
      exact h
    · right
      refine ⟨b, cfg.domain.getD [], ?_, hbase, h⟩
      cases hd : cfg.domain with
      | none => exact absurd (Or.inr (Or.inr (Or.inr hd))) hmiss
      | some d => rfl

/-- With all four parameters present, a usable token and a derivable base,
`_create_azure_email` reduces to the probe loop followed by the creation
POST and the STEP 6 dispatch. -/
theorem create_azure_email_run (cfg : Config) (env : CreateEnv) (emp : Employee)
    (b d : Str) (hdom : cfg.domain = some d)
    (ht : cfg.tenant_id ≠ none) (hcl : cfg.client_id ≠ none) (hs : cfg.client_secret ≠ none)
    (hhttp : env.tokenHttpOk = true) (tok : Str) (htok : env.token = some tok)
    (hb : deriveBase emp.name = some b) :
    create_azure_email cfg env emp =
      (match (probeGo env.check b d 99 1 (candEmail b d 1)).2 with
       | .err _ =>
         ⟨emp, ⟨.tokenReq, [], some 30⟩ ::
           (probeGo env.check b d 99 1 (candEmail b d 1)).1.map
             fun e => (⟨.userLookup, e, some 30⟩ : NetCall)⟩
       | .ok e =>
         if env.createStatus = 201 then
           ⟨{ emp with azure_email := some e, work_email := some e },
             ⟨.tokenReq, [], some 30⟩ ::
               (probeGo env.check b d 99 1 (candEmail b d 1)).1.map
                 (fun e => (⟨.userLookup, e, some 30⟩ : NetCall))
               ++ [⟨.userCreate, e, some 30⟩]⟩
         else
           ⟨emp, ⟨.tokenReq, [], some 30⟩ ::
             (probeGo env.check b d 99 1 (candEmail b d 1)).1.map
               (fun e => (⟨.userLookup, e, some 30⟩ : NetCall))
             ++ [⟨.userCreate, e, some 30⟩]⟩) := by
  have hmiss : ¬cfg.missing := by
    intro h
    rcases h with h | h | h | h
    · exact ht h
    · exact hcl h
    · exact hs h
    · rw [hdom] at h
      cases h
  unfold create_azure_email
  rw [if_neg hmiss, hb]
  dsimp only
  rw [if_neg (by rw [hhttp]; simp), htok, hdom]
  rfl

/-- With all four parameters present and a usable token,
`action_sync_dl_from_azure` reduces to the one- or two-search dispatch. -/
theorem action_sync_run (cfg : Config) (env : SyncEnv) (dept : Department)
    (d : Str) (hdom : cfg.domain = some d)
    (ht : cfg.tenant_id ≠ none) (hcl : cfg.client_id ≠ none) (hs : cfg.client_secret ≠ none)
    (hraise : env.tokenRaises = false) (tok : Str) (htok : env.token = some tok) :
    action_sync_dl_from_azure cfg env dept =
      (let upperN := normName dept.name
       let lowerN := normName (lowerStr dept.name)
       let upAddr := dlAddr upperN d
       let upGroups := if (env.search upAddr).1 = 200 then (env.search upAddr).2 else []
       if upGroups = [] ∧ upperN ≠ lowerN then
         let loAddr := dlAddr lowerN d
         let loGroups := if (env.search loAddr).1 = 200 then (env.search loAddr).2 else []
         match loGroups with
         | [] => ⟨dept, .notFound,
             [⟨.tokenReq, [], some 30⟩, ⟨.groupSearch, upAddr, some 30⟩,
              ⟨.groupSearch, loAddr, some 30⟩]⟩
         | g :: _ =>
           ⟨{ dept with azure_dl_email := some g.mail, azure_dl_id := some g.id },
             .linked g,
             [⟨.tokenReq, [], some 30⟩, ⟨.groupSearch, upAddr, some 30⟩,
              ⟨.groupSearch, loAddr, some 30⟩]⟩
       else
         match upGroups with
         | [] => ⟨dept, .notFound,
             [⟨.tokenReq, [], some 30⟩, ⟨.groupSearch, upAddr, some 30⟩]⟩
         | g :: _ =>
           ⟨{ dept with azure_dl_email := some g.mail, azure_dl_id := some g.id },
             .linked g,
             [⟨.tokenReq, [], some 30⟩, ⟨.groupSearch, upAddr, some 30⟩]⟩) := by
  have hmiss : ¬cfg.missing := by
    intro h
    rcases h with h | h | h | h
    · exact ht h
    · exact hcl h
    · exact hs h
    · rw [hdom] at h
      cases h
  unfold action_sync_dl_from_azure
  rw [if_neg hmiss]
  dsimp only
  rw [hraise]
  rw [if_neg (by simp), htok, hdom]
  rfl

/-- The length of a candidate sequence. -/
theorem candSeq_length (base domain : Str) :
    ∀ len start, (candSeq base domain start len).length = len := by
  intro len
  induction len with
  | zero => intro start; rfl
  | succ n ih =>
    intro start
    rw [candSeq, List.length_cons, ih (start + 1)]

/-- A configuration with all four parameters present. -/
def cfgFull : Config :=
  ⟨some ("t".data), some ("c".data), some ("s".data), some ("techcarrot.ae".data)⟩

/-- A fresh employee record as the upstream HR system creates it. -/
def empLK : Employee := ⟨"Lalith Kumar".data, none, none, none, some 7⟩

/-- A directory in which every lookup reports the address present. -/
def envAllFound : CreateEnv := ⟨true, some ("tok".data), fun _ => 200, 201⟩

/-- A directory in which every lookup reports the address absent and the
creation POST answers 201. -/
def envFree201 : CreateEnv := ⟨true, some ("tok".data), fun _ => 404, 201⟩

/-- Claim C3: on every display name the base derived by
`_create_azure_email` (strip, lowercase the whole name, then split) equals
lowercase(first whitespace-separated part) ++ "." ++ lowercase(last part),
the single part doubled for one-part names; and the initial candidate
address is exactly `base@domain`, so nothing beyond whitespace splitting
and lowercasing transforms the name. -/
theorem c3_derivation (name base domain : Str) :
    deriveBase name = specBase name ∧ candEmail base domain 1 = base ++ '@' :: domain :=
  ⟨deriveBase_eq_specBase name, rfl⟩

set_option maxRecDepth 100000 in
/-- Claim C1 counterexample: with every candidate reported present (more
conflicts than the loop can probe), the claim predicts an address-exhausted
failure with no account-creation call, yet the run does issue an
account-creation request. -/
theorem c1_counterexample :
    ((create_azure_email cfgFull envAllFound empLK).calls.any
      fun c => c.kind == CallKind.userCreate) = true := by
  decide

/-- Claim C1 (amended): exceeding the iteration budget does not fail
allocation — when the initial candidate and every probed suffixed candidate
are reported present, the loop stops after its 99 permitted lookups and the
method issues an account-creation call for the hundredth candidate
`base100@domain`, whose lookup never happened (101 requests in all: one
token request, 99 lookups, one creation).  In general, an account-creation
call targets either a candidate whose lookup returned not-found or that
hundredth candidate. -/
theorem c1_creation_after_exhaustion (cfg : Config) (env : CreateEnv) (emp : Employee) :
    (∀ b d tok, cfg.domain = some d → cfg.tenant_id ≠ none → cfg.client_id ≠ none →
      cfg.client_secret ≠ none → env.tokenHttpOk = true → env.token = some tok →
      deriveBase emp.name = some b → (∀ e, env.check e = 200) →
      (⟨.userCreate, candEmail b d 100, some 30⟩ : NetCall)
          ∈ (create_azure_email cfg env emp).calls ∧
        (create_azure_email cfg env emp).calls.length = 101) ∧
    (∀ c ∈ (create_azure_email cfg env emp).calls, c.kind = .userCreate →
      env.check c.target = 404 ∨
        ∃ b d, cfg.domain = some d ∧ deriveBase emp.name = some b ∧
          c.target = candEmail b d 100) := by
  constructor
  · intro b d tok hdom ht hcl hs hhttp htok hb hall
    rw [create_azure_email_run cfg env emp b d hdom ht hcl hs hhttp tok htok hb]
    rw [probeGo_all_found env.check b d hall 99 1]
    dsimp only
    by_cases hcs : env.createStatus = 201 <;>
      [rw [if_pos hcs]; rw [if_neg hcs]] <;>
      constructor <;>
      simp [candSeq_length, List.length_map]
  · exact create_userCreate_sound cfg env emp

set_option maxRecDepth 100000 in
/-- Witness for the amended claim C1 at a concrete run: name
`Lalith Kumar`, domain `techcarrot.ae`, every candidate present. -/
theorem c1_witness :
    (⟨CallKind.userCreate,
        candEmail ("lalith.kumar".data) ("techcarrot.ae".data) 100, some 30⟩ : NetCall)
        ∈ (create_azure_email cfgFull envAllFound empLK).calls ∧
      (create_azure_email cfgFull envAllFound empLK).calls.length = 101 :=
  (c1_creation_after_exhaustion cfgFull envAllFound empLK).1
    ("lalith.kumar".data) ("techcarrot.ae".data) ("tok".data) rfl
    (by decide) (by decide) (by decide) rfl rfl (by decide) (fun _ => rfl)

/-- Claim C4 (amended): for `N ≤ 98` pre-existing conflicts — the base and
the suffixed candidates up to `baseN` present, the next candidate free —
the loop looks up exactly `N + 1` candidates, base first and then the
suffixes `2..N+1` in order, and selects the first candidate whose lookup
returned not-found.  (At `N = 99` the loop instead stops after 99 lookups
and selects the hundredth candidate without looking it up — see the
counterexample.) -/
theorem c4_probe_sequence (check : Str → Nat) (base domain : Str) (N : Nat)
    (hN : N ≤ 98)
    (hpresent : ∀ k, 1 ≤ k → k ≤ N → check (candEmail base domain k) = 200)
    (hfree : check (candEmail base domain (N + 1)) = 404) :
    probeGo check base domain 99 1 (candEmail base domain 1)
      = (candSeq base domain 1 (N + 1), ProbeOut.ok (candEmail base domain (N + 1))) := by
  have h1 : 1 + N = N + 1 := by omega
  have := probeGo_run check base domain N 99 1 (by omega)
    (fun k hk1 hk2 => hpresent k hk1 (by omega))
    (by rw [h1]; exact hfree)
  rwa [h1] at this

/-- The 99 candidate addresses at counters 1..99 over base `a`, domain `b`. -/
def presentL : List Str := candSeq ("a".data) ("b".data) 1 99

/-- The deterministic directory in which exactly those 99 addresses exist. -/
def checkN99 : Str → Nat := fun e => if e ∈ presentL then 200 else 404

set_option maxRecDepth 100000 in
/-- Claim C4 counterexample: under a directory with exactly `N = 99`
conflicting addresses the claim predicts 100 probes ending in a not-found
lookup, but the loop performs only 99 lookups and resolves to the
hundredth candidate, which was never looked up. -/
theorem c4_counterexample :
    (probeGo checkN99 ("a".data) ("b".data) 99 1
        (candEmail ("a".data) ("b".data) 1)).1.length = 99 ∧
      (probeGo checkN99 ("a".data) ("b".data) 99 1
        (candEmail ("a".data) ("b".data) 1)).2
        = ProbeOut.ok (candEmail ("a".data) ("b".data) 100) ∧
      candEmail ("a".data) ("b".data) 100
        ∉ (probeGo checkN99 ("a".data) ("b".data) 99 1
            (candEmail ("a".data) ("b".data) 1)).1 := by
  decide

/-- The deterministic directory in which only the base candidate exists. -/
def checkOne : Str → Nat :=
  fun e => if e = candEmail ("a".data) ("b".data) 1 then 200 else 404

set_option maxRecDepth 10000 in
/-- Witness for the amended claim C4 at `N = 1`: two lookups, the suffixed
candidate `a2@b` wins. -/
theorem c4_witness :
    probeGo checkOne ("a".data) ("b".data) 99 1 (candEmail ("a".data) ("b".data) 1)
      = (candSeq ("a".data) ("b".data) 1 2,
          ProbeOut.ok (candEmail ("a".data) ("b".data) 2)) :=
  c4_probe_sequence checkOne ("a".data) ("b".data) 1 (by omega)
    (fun k hk1 hk2 => by
      have hk : k = 1 := by omega
      subst hk
      decide)
    (by decide)

set_option maxRecDepth 10000 in
/-- Claim C2, evaluated at the failing input (name `Lalith Kumar`, free
directory, creation answers 201): the run writes the derived mailbox to
`azure_email` and `work_email` but never writes `azure_user_id` — the 201
response body is parsed into `user_data` and discarded — so the
both-or-neither pair invariant is broken on every successful creation. -/
theorem c2_pair_invariant_bug :
    (create_azure_email cfgFull envFree201 empLK).emp.azure_email
        = some ("lalith.kumar@techcarrot.ae".data) ∧
      (create_azure_email cfgFull envFree201 empLK).emp.work_email
        = some ("lalith.kumar@techcarrot.ae".data) ∧
      (create_azure_email cfgFull envFree201 empLK).emp.azure_user_id = none := by
  decide

/-- Claim C10: on a successful creation (201) the run writes the resolved
address to `azure_email` and `work_email` and mutates no other employee
field — `name`, `azure_user_id` and `department_id` are untouched. -/
theorem c10_frame (cfg : Config) (env : CreateEnv) (emp : Employee) (b d tok e : Str)
    (hdom : cfg.domain = some d) (ht : cfg.tenant_id ≠ none) (hcl : cfg.client_id ≠ none)
    (hs : cfg.client_secret ≠ none) (hhttp : env.tokenHttpOk = true)
    (htok : env.token = some tok) (hb : deriveBase emp.name = some b)
    (hok : (probeGo env.check b d 99 1 (candEmail b d 1)).2 = ProbeOut.ok e)
    (h201 : env.createStatus = 201) :
    (create_azure_email cfg env emp).emp
        = { emp with azure_email := some e, work_email := some e } ∧
      (create_azure_email cfg env emp).emp.name = emp.name ∧
      (create_azure_email cfg env emp).emp.azure_user_id = emp.azure_user_id ∧
      (create_azure_email cfg env emp).emp.department_id = emp.department_id := by
  rw [create_azure_email_run cfg env emp b d hdom ht hcl hs hhttp tok htok hb, hok]
  dsimp only
  rw [if_pos h201]
  exact ⟨rfl, rfl, rfl, rfl⟩

set_option maxRecDepth 10000 in
/-- Witness for claim C10 at a concrete successful run. -/
theorem c10_witness :
    (create_azure_email cfgFull envFree201 empLK).emp
        = { empLK with
            azure_email := some ("lalith.kumar@techcarrot.ae".data),
            work_email := some ("lalith.kumar@techcarrot.ae".data) } ∧
      (create_azure_email cfgFull envFree201 empLK).emp.name = empLK.name ∧
      (create_azure_email cfgFull envFree201 empLK).emp.azure_user_id = empLK.azure_user_id ∧
      (create_azure_email cfgFull envFree201 empLK).emp.department_id = empLK.department_id :=
  c10_frame cfgFull envFree201 empLK ("lalith.kumar".data) ("techcarrot.ae".data)
    ("tok".data) ("lalith.kumar@techcarrot.ae".data) rfl (by decide) (by decide)
    (by decide) rfl rfl (by decide) (by decide) rfl

/-- `dlAddr` determines the name form, the domain being fixed. -/
theorem dlAddr_inj {f1 f2 d : Str} (h : dlAddr f1 d = dlAddr f2 d) : f1 = f2 := by
  unfold dlAddr at h
  injection h with h1 h
  injection h with h2 h
  injection h with h3 h
  exact List.append_cancel_right h

/-- With the guard satisfied and the department already linked,
`_add_to_dept_dl` reduces to the token POST and the member-add dispatch,
without invoking `create_dl` and without touching the department. -/
theorem add_to_dept_dl_run (cfg : Config) (env : AddEnv) (emp : Employee) (dept : Department)
    (gid : Str) (hdep : emp.department_id ≠ none) (huid : emp.azure_user_id ≠ none)
    (hgid : dept.azure_dl_id = some gid) :
    add_to_dept_dl cfg env emp dept =
      (if env.tokenRaises then
        ⟨dept, .exceptionLogged, [⟨.tokenReq, [], none⟩], false⟩
       else if env.addRaises then
        ⟨dept, .exceptionLogged,
          [⟨.tokenReq, [], none⟩, ⟨.memberAdd, gid, none⟩], false⟩
       else if env.addStatus = 204 then
        ⟨dept, .added, [⟨.tokenReq, [], none⟩, ⟨.memberAdd, gid, none⟩], false⟩
       else if env.addStatus = 400 then
        ⟨dept, .alreadyMember,
          [⟨.tokenReq, [], none⟩, ⟨.memberAdd, gid, none⟩], false⟩
       else
        ⟨dept, .otherLogged env.addStatus,
          [⟨.tokenReq, [], none⟩, ⟨.memberAdd, gid, none⟩], false⟩) := by
  unfold add_to_dept_dl
  rw [if_neg (not_or.mpr ⟨hdep, huid⟩)]
  dsimp only
  rw [if_neg (show ¬dept.azure_dl_id = none by rw [hgid]; simp), hgid]
  rfl

/-- Case analysis on the requests `action_sync_dl_from_azure` can issue:
the token request and group searches. -/
theorem sync_calls_cases (cfg : Config) (env : SyncEnv) (dept : Department)
    (P : NetCall → Prop)
    (htok : P ⟨.tokenReq, [], some 30⟩)
    (hsearch : ∀ a, P ⟨.groupSearch, a, some 30⟩) :
    ∀ c ∈ (action_sync_dl_from_azure cfg env dept).calls, P c := by
  intro c hc
  unfold action_sync_dl_from_azure at hc
  by_cases hmiss : cfg.missing
  · rw [if_pos hmiss] at hc
    simp at hc
  · rw [if_neg hmiss] at hc
    dsimp only at hc
    by_cases hr : env.tokenRaises = true
    · rw [if_pos hr] at hc
      rcases List.mem_singleton.mp hc with rfl
      exact htok
    · rw [if_neg hr] at hc
      cases htokv : env.token with
      | none =>
        rw [htokv] at hc
        rcases List.mem_singleton.mp hc with rfl
        exact htok
      | some tok =>
        rw [htokv] at hc
        dsimp only at hc
        repeat' split at hc
        all_goals
          repeat
            first
            | exact htok
            | exact hsearch _
            | exact absurd hc (List.not_mem_nil c)
            | rcases List.mem_cons.mp hc with rfl | hc

/-- Every request `_add_to_dept_dl` issues carries no timeout. -/
theorem add_calls_no_timeout (cfg : Config) (env : AddEnv) (emp : Employee) (dept : Department) :
    ∀ c ∈ (add_to_dept_dl cfg env emp dept).calls, c.timeout = none := by
  intro c hc
  unfold add_to_dept_dl at hc
  split at hc
  · simp at hc
  · dsimp only at hc
    repeat' split at hc
    all_goals
      repeat
        first
        | rfl
        | exact absurd hc (List.not_mem_nil c)
        | rcases List.mem_cons.mp hc with rfl | hc

/-- The configuration with all four values absent. -/
def cfgNone : Config := ⟨none, none, none, none⟩

/-- A department already linked to a group. -/
def deptLinked : Department := ⟨"HR".data, some ("DL_HR@x".data), some ("g1".data)⟩

/-- An employee with a department and an external account reference. -/
def empU : Employee := ⟨"Lalith Kumar".data, none, none, some ("u1".data), some 7⟩

/-- A membership-add environment whose member-add POST answers 204. -/
def envAdd204 : AddEnv := ⟨none, false, some ("tok".data), 204, false⟩

/-- A membership-add environment whose member-add POST answers 400 — the
directory rejecting a duplicate addition. -/
def envAdd400 : AddEnv := ⟨none, false, some ("tok".data), 400, false⟩

/-- A sync environment whose searches find nothing. -/
def envSync0 : SyncEnv := ⟨false, some ("tok".data), fun _ => (200, [])⟩

/-- A sync environment whose every search finds the group `g2`. -/
def envSyncG2 : SyncEnv :=
  ⟨false, some ("tok".data), fun _ => (200, [⟨"DL_hr@techcarrot.ae".data, "g2".data⟩])⟩

/-- Claim C5: group resolution queries the upper-form address
`DL_{upper}@{domain}` first; the lower-form address is queried only when
the first search yielded no groups and the two forms differ.  When the two
forms are identical exactly one search call occurs, regardless of its
outcome; when the forms differ, the upper search misses and the lower
search hits, exactly two search calls occur, the second one hitting and its
group being linked. -/
theorem c5_group_resolution (cfg : Config) (env : SyncEnv) (dept : Department)
    (d tok : Str) (hdom : cfg.domain = some d)
    (ht : cfg.tenant_id ≠ none) (hcl : cfg.client_id ≠ none) (hs : cfg.client_secret ≠ none)
    (hraise : env.tokenRaises = false) (htok : env.token = some tok) :
    (normName dept.name = normName (lowerStr dept.name) →
      (action_sync_dl_from_azure cfg env dept).calls =
        [⟨.tokenReq, [], some 30⟩,
         ⟨.groupSearch, dlAddr (normName dept.name) d, some 30⟩]) ∧
    (normName dept.name ≠ normName (lowerStr dept.name) →
      env.search (dlAddr (normName dept.name) d) = (200, []) →
      ∀ g gs, env.search (dlAddr (normName (lowerStr dept.name)) d) = (200, g :: gs) →
        (action_sync_dl_from_azure cfg env dept).calls =
          [⟨.tokenReq, [], some 30⟩,
           ⟨.groupSearch, dlAddr (normName dept.name) d, some 30⟩,
           ⟨.groupSearch, dlAddr (normName (lowerStr dept.name)) d, some 30⟩] ∧
          (action_sync_dl_from_azure cfg env dept).result = .linked g) ∧
    (∀ g gs st, env.search (dlAddr (normName dept.name) d) = (st, g :: gs) → st = 200 →
      (action_sync_dl_from_azure cfg env dept).calls =
        [⟨.tokenReq, [], some 30⟩,
         ⟨.groupSearch, dlAddr (normName dept.name) d, some 30⟩]) ∧
    (normName dept.name ≠ normName (lowerStr dept.name) →
      (⟨.groupSearch, dlAddr (normName (lowerStr dept.name)) d, some 30⟩ : NetCall)
          ∈ (action_sync_dl_from_azure cfg env dept).calls →
      (if (env.search (dlAddr (normName dept.name) d)).1 = 200
        then (env.search (dlAddr (normName dept.name) d)).2 else []) = []) := by
  rw [action_sync_run cfg env dept d hdom ht hcl hs hraise tok htok]
  dsimp only
  refine ⟨?_, ?_, ?_, ?_⟩
  · intro heq
    rw [if_neg (fun hcond => hcond.2 heq)]
    cases hug : (if (env.search (dlAddr (normName dept.name) d)).1 = 200
        then (env.search (dlAddr (normName dept.name) d)).2 else []) with
    | nil => rfl
    | cons g gs => rfl
  · intro hne hup g gs hlo
    rw [hup, hlo]
    dsimp only
    rw [if_pos rfl, if_pos rfl, if_pos ⟨rfl, hne⟩]
    exact ⟨rfl, rfl⟩
  · intro g gs st hup h200
    subst h200
    rw [hup]
    dsimp only
    rw [if_pos rfl, if_neg (fun hcond => absurd hcond.1 (List.cons_ne_nil g gs))]
  · intro hne hmem
    by_cases hug : (if (env.search (dlAddr (normName dept.name) d)).1 = 200
        then (env.search (dlAddr (normName dept.name) d)).2 else []) = []
    · exact hug
    · rw [if_neg (fun hcond => hug hcond.1)] at hmem
      exfalso
      cases hg2 : (if (env.search (dlAddr (normName dept.name) d)).1 = 200
          then (env.search (dlAddr (normName dept.name) d)).2 else []) with
      | nil => exact hug hg2
      | cons g gs =>
        rw [hg2] at hmem
        rcases List.mem_cons.mp hmem with hcall | hmem2
        · cases congrArg NetCall.kind hcall
        · rcases List.mem_singleton.mp hmem2 with hcall
          exact hne (dlAddr_inj (congrArg NetCall.target hcall)).symm

/-- A department whose name has no uppercase form of its own. -/
def deptLow : Department := ⟨"hr".data, none, none⟩

/-- A department with an uppercase name and no link yet. -/
def deptHRCase : Department := ⟨"HR".data, none, none⟩

/-- A sync environment in which only the lowercase-form address exists. -/
def envSyncLowOnly : SyncEnv :=
  ⟨false, some ("tok".data), fun a =>
    if a = dlAddr (normName (lowerStr ("HR".data))) ("techcarrot.ae".data) then
      (200, [⟨"DL_hr@techcarrot.ae".data, "g2".data⟩])
    else (200, [])⟩

set_option maxRecDepth 10000 in
/-- Witness for claim C5: a single-form name gives exactly one search; an
uppercase name with only the lowercase group present gives exactly two
searches, the second one hitting and being linked. -/
theorem c5_witness :
    ((action_sync_dl_from_azure cfgFull envSync0 deptLow).calls =
      [⟨CallKind.tokenReq, [], some 30⟩,
       ⟨CallKind.groupSearch, dlAddr (normName deptLow.name) ("techcarrot.ae".data),
         some 30⟩]) ∧
      ((action_sync_dl_from_azure cfgFull envSyncLowOnly deptHRCase).calls =
        [⟨CallKind.tokenReq, [], some 30⟩,
         ⟨CallKind.groupSearch, dlAddr (normName deptHRCase.name) ("techcarrot.ae".data),
           some 30⟩,
         ⟨CallKind.groupSearch,
           dlAddr (normName (lowerStr deptHRCase.name)) ("techcarrot.ae".data), some 30⟩] ∧
        (action_sync_dl_from_azure cfgFull envSyncLowOnly deptHRCase).result
          = SyncResult.linked ⟨"DL_hr@techcarrot.ae".data, "g2".data⟩) :=
  ⟨(c5_group_resolution cfgFull envSync0 deptLow ("techcarrot.ae".data) ("tok".data) rfl
      (by decide) (by decide) (by decide) rfl rfl).1 (by decide),
   (c5_group_resolution cfgFull envSyncLowOnly deptHRCase ("techcarrot.ae".data)
      ("tok".data) rfl (by decide) (by decide) (by decide) rfl rfl).2.1 (by decide)
      (by decide) ⟨"DL_hr@techcarrot.ae".data, "g2".data⟩ [] (by decide)⟩

/-- Claim C6: the add-member operation never propagates an error to its
caller.  With the department linked: a 204 response is reported as newly
linked; a 400 response is interpreted as already-a-member and reported as a
successful no-op — so issuing the add twice for the same group/account
pair, the directory rejecting the duplicate with 400, does not raise on the
second call; any other status yields only a logged-failure outcome; and an
HTTP exception in either request is caught and logged.  Every case is a
normal return, and the model touches neither the employee record nor the
created account — provisioning is never unwound. -/
theorem c6_add_member (cfg : Config) (env : AddEnv) (emp : Employee) (dept : Department)
    (hdep : emp.department_id ≠ none) (huid : emp.azure_user_id ≠ none)
    (hdl : dept.azure_dl_id ≠ none) :
    (env.tokenRaises = false → env.addRaises = false →
      ((env.addStatus = 204 → (add_to_dept_dl cfg env emp dept).outcome = .added) ∧
       (env.addStatus = 400 →
         (add_to_dept_dl cfg env emp dept).outcome = .alreadyMember) ∧
       (env.addStatus ≠ 204 → env.addStatus ≠ 400 →
         (add_to_dept_dl cfg env emp dept).outcome = .otherLogged env.addStatus))) ∧
      (env.tokenRaises = true →
        (add_to_dept_dl cfg env emp dept).outcome = .exceptionLogged) ∧
      (env.tokenRaises = false → env.addRaises = true →
        (add_to_dept_dl cfg env emp dept).outcome = .exceptionLogged) := by
  obtain ⟨gid, hgid⟩ := Option.ne_none_iff_exists'.mp hdl
  rw [add_to_dept_dl_run cfg env emp dept gid hdep huid hgid]
  refine ⟨?_, ?_, ?_⟩
  · intro h1 h2
    refine ⟨?_, ?_, ?_⟩
    · intro hs
      simp [h1, h2, hs]
    · intro hs
      simp [h1, h2, hs]
    · intro hs1 hs2
      simp [h1, h2, hs1, hs2]
  · intro h1
    simp [h1]
  · intro h1 h2
    simp [h1, h2]

/-- Witness for claim C6: the duplicate add (400) reports the
already-a-member no-op. -/
theorem c6_witness :
    (add_to_dept_dl cfgFull envAdd400 empU deptLinked).outcome
      = AddOutcome.alreadyMember :=
  ((c6_add_member cfgFull envAdd400 empU deptLinked (by decide) (by decide)
    (by decide)).1 rfl rfl).2.1 rfl

/-- Claim C7 counterexample: with all four configuration values absent,
`_add_to_dept_dl` — an operation that reaches the directory — still issues
its token request and its member-add request: no credentials-missing
outcome occurs before a network call. -/
theorem c7_counterexample :
    (add_to_dept_dl cfgNone envAdd204 empU deptLinked).calls
      = [⟨CallKind.tokenReq, [], none⟩, ⟨CallKind.memberAdd, "g1".data, none⟩] := by
  decide

/-- Claim C7 (amended): `_create_azure_email` and
`action_sync_dl_from_azure` check the four configuration values and return
the credentials-missing outcome before any network call when one is
absent; `_add_to_dept_dl` performs no such check and issues its token
request regardless of the configuration. -/
theorem c7_credentials_gate (cfg : Config) (envC : CreateEnv) (envS : SyncEnv)
    (envA : AddEnv) (emp : Employee) (dept : Department) :
    (cfg.missing → create_azure_email cfg envC emp = ⟨emp, []⟩) ∧
      (cfg.missing →
        action_sync_dl_from_azure cfg envS dept = ⟨dept, .credsMissing, []⟩) ∧
      (emp.department_id ≠ none → emp.azure_user_id ≠ none →
        dept.azure_dl_id ≠ none →
        (⟨.tokenReq, [], none⟩ : NetCall) ∈ (add_to_dept_dl cfg envA emp dept).calls) := by
  refine ⟨?_, ?_, ?_⟩
  · intro h
    unfold create_azure_email
    rw [if_pos h]
  · intro h
    unfold action_sync_dl_from_azure
    rw [if_pos h]
  · intro hdep huid hdl
    obtain ⟨gid, hgid⟩ := Option.ne_none_iff_exists'.mp hdl
    rw [add_to_dept_dl_run cfg envA emp dept gid hdep huid hgid]
    split_ifs <;> simp

/-- Witness for the amended claim C7: the creation path returns untouched
with no calls under a missing configuration, while the membership-add path
still issues its token request under the same missing configuration. -/
theorem c7_witness :
    create_azure_email cfgNone envFree201 empLK = ⟨empLK, []⟩ ∧
      (⟨CallKind.tokenReq, [], none⟩ : NetCall)
        ∈ (add_to_dept_dl cfgNone envAdd204 empU deptLinked).calls :=
  ⟨(c7_credentials_gate cfgNone envFree201 envSync0 envAdd204 empLK deptLinked).1
      (Or.inl rfl),
   (c7_credentials_gate cfgNone envFree201 envSync0 envAdd204 empU deptLinked).2.2
      (by decide) (by decide) (by decide)⟩

/-- Claim C8 counterexample: the two requests issued by `_add_to_dept_dl`
carry no timeout, so not every remote call carries the 30-unit timeout. -/
theorem c8_counterexample :
    ¬ ∀ c ∈ (add_to_dept_dl cfgFull envAdd204 empU deptLinked).calls,
        c.timeout = some 30 := by
  decide

/-- Claim C8 (amended): every request issued by `_create_azure_email` and
`action_sync_dl_from_azure` carries the 30-unit timeout, but the two
requests of `_add_to_dept_dl` (token acquisition and member append) are
issued with no timeout at all. -/
theorem c8_timeouts (cfg : Config) (envC : CreateEnv) (envS : SyncEnv) (envA : AddEnv)
    (emp : Employee) (dept : Department) :
    (∀ c ∈ (create_azure_email cfg envC emp).calls, c.timeout = some 30) ∧
      (∀ c ∈ (action_sync_dl_from_azure cfg envS dept).calls, c.timeout = some 30) ∧
      (∀ c ∈ (add_to_dept_dl cfg envA emp dept).calls, c.timeout = none) :=
  ⟨create_calls_timeout cfg envC emp,
   sync_calls_cases cfg envS dept (fun c => c.timeout = some 30) rfl (fun _ => rfl),
   add_calls_no_timeout cfg envA emp dept⟩

set_option maxRecDepth 10000 in
/-- Witness for the amended claim C8 at concrete runs of the three
operations. -/
theorem c8_witness :
    NetCall.timeout ⟨CallKind.tokenReq, [], some 30⟩ = some 30 ∧
      NetCall.timeout ⟨CallKind.memberAdd, "g1".data, none⟩ = none :=
  ⟨(c8_timeouts cfgFull envFree201 envSync0 envAdd204 empLK deptLinked).1
      ⟨CallKind.tokenReq, [], some 30⟩ (by decide),
   (c8_timeouts cfgFull envFree201 envSync0 envAdd204 empU deptLinked).2.2
      ⟨CallKind.memberAdd, "g1".data, none⟩ (by decide)⟩

/-- Claim C9 counterexample: a department already linked (`g1`) is
re-linked by the sync action to whatever group its search finds (`g2`):
the linked-group fields are overwritten, not set at most once. -/
theorem c9_counterexample :
    deptLinked.azure_dl_id = some ("g1".data) ∧
      (action_sync_dl_from_azure cfgFull envSyncG2 deptLinked).dept.azure_dl_id
        = some ("g2".data) := by
  decide

/-- Claim C9 (amended): `_add_to_dept_dl` invokes group creation only when
the unit is not linked yet and leaves an already-linked unit unchanged; the
manual sync action, however, re-derives the link and overwrites both
linked-group fields whenever its search finds a group, whether or not the
unit was already linked. -/
theorem c9_link_write_policy (cfg : Config) (envS : SyncEnv) (envA : AddEnv)
    (emp : Employee) (dept : Department) :
    (dept.azure_dl_id ≠ none →
      (add_to_dept_dl cfg envA emp dept).createDlInvoked = false ∧
        (add_to_dept_dl cfg envA emp dept).dept = dept) ∧
      (∀ d tok g gs, cfg.domain = some d → cfg.tenant_id ≠ none →
        cfg.client_id ≠ none → cfg.client_secret ≠ none →
        envS.tokenRaises = false → envS.token = some tok →
        envS.search (dlAddr (normName dept.name) d) = (200, g :: gs) →
        (action_sync_dl_from_azure cfg envS dept).dept
          = { dept with azure_dl_email := some g.mail, azure_dl_id := some g.id }) := by
  refine ⟨?_, ?_⟩
  · intro hdl
    unfold add_to_dept_dl
    by_cases hpre : emp.department_id = none ∨ emp.azure_user_id = none
    · rw [if_pos hpre]
      exact ⟨rfl, rfl⟩
    · rw [if_neg hpre]
      dsimp only
      rw [if_neg hdl]
      obtain ⟨gid, hgid⟩ := Option.ne_none_iff_exists'.mp hdl
      rw [hgid]
      dsimp only
      split_ifs <;> exact ⟨rfl, rfl⟩
  · intro d tok g gs hdom ht hcl hs hraise htok hsearch
    rw [action_sync_run cfg envS dept d hdom ht hcl hs hraise tok htok]
    dsimp only
    rw [hsearch]
    dsimp only
    rw [if_pos rfl, if_neg (fun hcond => absurd hcond.1 (List.cons_ne_nil g gs))]

set_option maxRecDepth 10000 in
/-- Witness for the amended claim C9: the linked department is untouched by
the member-add path, while the sync action overwrites its link with the
found group. -/
theorem c9_witness :
    ((add_to_dept_dl cfgFull envAdd204 empU deptLinked).createDlInvoked = false ∧
      (add_to_dept_dl cfgFull envAdd204 empU deptLinked).dept = deptLinked) ∧
      (action_sync_dl_from_azure cfgFull envSyncG2 deptLinked).dept
        = { deptLinked with
            azure_dl_email := some ("DL_hr@techcarrot.ae".data),
            azure_dl_id := some ("g2".data) } :=
  ⟨(c9_link_write_policy cfgFull envSyncG2 envAdd204 empU deptLinked).1 (by decide),
   (c9_link_write_policy cfgFull envSyncG2 envAdd204 empU deptLinked).2
      ("techcarrot.ae".data) ("tok".data)
      ⟨"DL_hr@techcarrot.ae".data, "g2".data⟩ [] rfl (by decide) (by decide)
      (by decide) rfl rfl (by decide)⟩

end AzureSync
